import Mathlib

/-!
Verification of the HD key-derivation path subsystem of bnc-cosmos-sdk
(`crypto/keys/hd`) and the staking type declarations (`types/stake.go`).

The HD implementation file itself ships only with its test file here, so the
path grammar, master-key generation, child derivation and the lenient path
walker are modelled from the specification document; the staking declarations
are embedded directly from `types/stake.go`.

Bytes are modelled as natural numbers below 256 held in lists; path text is
modelled as a list of characters (a Go string's runes).
-/

namespace BncHd

/-- The hardening-marker character (ASCII 0x27) used by the path grammar. -/
def apos : Char := Char.ofNat 39

/-- Decimal digit character for a value below ten. -/
def digitChar : Nat → Char
  | 0 => '0'
  | 1 => '1'
  | 2 => '2'
  | 3 => '3'
  | 4 => '4'
  | 5 => '5'
  | 6 => '6'
  | 7 => '7'
  | 8 => '8'
  | _ => '9'

/-- Numeric value of a decimal digit character. -/
def digitVal (c : Char) : Nat := c.toNat - 48

/-- Decimal rendering of a natural number, most significant digit first.
Fuel-based so that it reduces in the kernel; `natDigits` supplies enough fuel. -/
def natDigitsAux : Nat → Nat → List Char
  | 0, _ => []
  | fuel + 1, n =>
    if n < 10 then [digitChar n]
    else natDigitsAux fuel (n / 10) ++ [digitChar (n % 10)]

/-- Decimal rendering of a natural number (the `%d` verb of the formatter). -/
def natDigits (n : Nat) : List Char := natDigitsAux (n + 1) n

/-- Decimal value of a digit list, most significant digit first. -/
def decodeDigits (s : List Char) : Nat := s.foldl (fun a c => 10 * a + digitVal c) 0

/-- Modelled from the spec: parse a token as a non-negative integer — it must
be a non-empty all-digit string (missing `strconv`-style parser of the
absent hdpath.go). -/
def parseNatDigits (s : List Char) : Option Nat :=
  if s ≠ [] ∧ s.all Char.isDigit then some (decodeDigits s) else none

/-- Split a character list on the `/` separator, Go `strings.Split` style:
the empty input yields one empty field, and n separators yield n+1 fields. -/
def splitOnSlash : List Char → List (List Char)
  | [] => [[]]
  | c :: cs =>
    if c = '/' then [] :: splitOnSlash cs
    else
      match splitOnSlash cs with
      | [] => [[c]]
      | t :: ts => (c :: t) :: ts

/-- Modelled from the spec: parse a hardened field — digits followed by the
hardening marker, value returned; `none` when the marker is missing or the
body is not a non-negative integer. -/
def parseHardened (t : List Char) : Option Nat :=
  match t.reverse with
  | c :: rest => if c = apos then parseNatDigits rest.reverse else none
  | [] => none

/-- Modelled from the spec: parse the change field — it must be exactly the
literal `0` or `1`, no hardening marker. -/
def parseChange (t : List Char) : Option Bool :=
  if t = ['0'] then some false
  else if t = ['1'] then some true
  else none

/-- BIP44 path parameters, from the test file's `BIP44Params` literals:
purpose, coin type, account, change, address index. -/
structure BIP44Params where
  purpose : Nat
  coinType : Nat
  account : Nat
  change : Bool
  addressIndex : Nat
deriving DecidableEq, Repr

/-- Constructor mirroring `NewParams(purpose, coinType, account, change, addressIndex)`. -/
def NewParams (purpose coinType account : Nat) (change : Bool) (addressIndex : Nat) :
    BIP44Params :=
  ⟨purpose, coinType, account, change, addressIndex⟩

/-- Rendering of the change field: literal `0` or `1`. -/
def changeDigits (change : Bool) : List Char := if change then ['1'] else ['0']

/-- Modelled from the spec: the canonical formatter (`BIP44Params.String`),
emitting purpose, coin type and account with hardening markers, then the
change bit and the address index without markers, `/`-separated. -/
def BIP44Params.pathString (p : BIP44Params) : List Char :=
  (natDigits p.purpose ++ [apos]) ++ '/' ::
    ((natDigits p.coinType ++ [apos]) ++ '/' ::
      ((natDigits p.account ++ [apos]) ++ '/' ::
        (changeDigits p.change ++ '/' :: natDigits p.addressIndex)))

/-- Modelled from the spec: the strict parser `NewParamsFromPath`: exactly five
`/`-separated fields; field 0 the literal value 44 with hardening marker;
fields 1 and 2 hardened non-negative integers; field 3 a bare `0` or `1`;
field 4 a bare non-negative integer. Every violation yields an error and no
partial result. -/
def NewParamsFromPath (s : List Char) : Except String BIP44Params :=
  match splitOnSlash s with
  | [f0, f1, f2, f3, f4] =>
    match parseHardened f0 with
    | none => .error "first field must be a hardened integer"
    | some p =>
      if p = 44 then
        match parseHardened f1 with
        | none => .error "second field must be a hardened non-negative integer"
        | some ct =>
          match parseHardened f2 with
          | none => .error "third field must be a hardened non-negative integer"
          | some acc =>
            match parseChange f3 with
            | none => .error "change field must be the literal 0 or 1 with no marker"
            | some ch =>
              match parseNatDigits f4 with
              | none => .error "address index must be a bare non-negative integer"
              | some ai => .ok ⟨p, ct, acc, ch, ai⟩
      else .error "first field in path must be 44"
  | _ => .error "path length is wrong, expected 5 fields"

/-- Declarative 5-field grammar, written from the specification's words, to be
compared with the operational parser. -/
def validPath (s : List Char) : Bool :=
  match splitOnSlash s with
  | [f0, f1, f2, f3, f4] =>
    (match parseHardened f0 with
     | some n => n == 44
     | none => false)
      && (parseHardened f1).isSome && (parseHardened f2).isSome
      && (parseChange f3).isSome && (parseNatDigits f4).isSome
  | _ => false

/-- `true` exactly on the success branch of the strict parser. -/
def isOkE (e : Except String BIP44Params) : Bool :=
  match e with
  | .ok _ => true
  | .error _ => false

/-- `true` exactly on the error branch of the strict parser. -/
def isErrE (e : Except String BIP44Params) : Bool :=
  match e with
  | .ok _ => false
  | .error _ => true

/-! ### Key material and derivation

The derivation functions are parameterized by the keyed hash
`H : key → data → 64-byte digest`, whose concrete identity and
domain-separation constants the specification leaves unspecified. -/

/-- Key material: 32 bytes of key and 32 bytes of chain code (spec §3). -/
structure KeyMaterial where
  key : List Nat
  chainCode : List Nat
deriving DecidableEq, Repr

/-- Big-endian 4-byte encoding of a 32-bit value. -/
def beBytes4 (n : Nat) : List Nat :=
  [n / 2 ^ 24 % 256, n / 2 ^ 16 % 256, n / 2 ^ 8 % 256, n % 256]

/-- Modelled from the spec: the fixed one-byte lead of the hashed data in a
hardened step; the spec does not pin its value, `0x00` is used as the
placeholder. No claim depends on the concrete value. -/
def fixedLead : List Nat := [0]

/-- Effective index of a step: the raw 32-bit index, with the top bit forced
when the step is hardened. -/
def effBase (index : Nat) (hardened : Bool) : Nat :=
  if hardened then index % 2 ^ 31 + 2 ^ 31 else index % 2 ^ 32

/-- Modelled from the spec: one derivation step honouring the hardened flag —
keyed hash of lead byte, parent key and big-endian effective index, split
into child key (left half) and chain code (right half). -/
def deriveChildCore (H : List Nat → List Nat → List Nat)
    (parentKey parentChainCode : List Nat) (index : Nat) (hardened : Bool) :
    KeyMaterial :=
  let digest := H parentChainCode (fixedLead ++ parentKey ++ beBytes4 (effBase index hardened))
  ⟨digest.take 32, digest.drop 32⟩

/-- Modelled from the spec: the deriver exposed to callers. The curve only
supports hardened derivation, so the hardened form is always computed and
the caller-supplied flag is discarded. -/
def deriveChild (H : List Nat → List Nat → List Nat)
    (parentKey parentChainCode : List Nat) (index : Nat) (_hardened : Bool) :
    KeyMaterial :=
  deriveChildCore H parentKey parentChainCode index true

/-- Modelled from the spec: master-key generation — the fixed keyed hash of
the seed (one function `Hm` of the seed bytes), left half the key, right
half the chain code. -/
def computeMaster (Hm : List Nat → List Nat) (seed : List Nat) : KeyMaterial :=
  let digest := Hm seed
  ⟨digest.take 32, digest.drop 32⟩

/-- Wrapper with the test file's name, returning the (master key, chain code)
pair of `ComputeMastersFromSeed`. -/
def ComputeMastersFromSeed (Hm : List Nat → List Nat) (seed : List Nat) :
    List Nat × List Nat :=
  ((computeMaster Hm seed).key, (computeMaster Hm seed).chainCode)

/-! ### Lenient path walker -/

/-- Strip surrounding whitespace (lenient tokenizer, spec §4.4). -/
def trimWs (s : List Char) : List Char :=
  ((s.dropWhile Char.isWhitespace).reverse.dropWhile Char.isWhitespace).reverse

/-- Modelled from the spec: strip an optional leading root marker `m`. -/
def stripRoot (s : List Char) : List Char :=
  match s with
  | [] => []
  | c :: cs => if c = 'm' then cs else c :: cs

/-- Raw tokens of the lenient tokenizer: trim, strip the root marker, split on
the separator. Empty tokens are kept here; they fail numeric parsing and are
skipped by the walker. -/
def rawTokens (path : List Char) : List (List Char) :=
  splitOnSlash (stripRoot (trimWs path))

/-- Segment list of a path: each raw token parsed as a non-negative integer,
unparsable tokens skipped. -/
def segments (path : List Char) : List Nat :=
  (rawTokens path).filterMap parseNatDigits

/-- Modelled from the spec: the walker's loop — parse each token, skip the
unparsable ones, derive a hardened child for every parsed index. -/
def walkTokens (H : List Nat → List Nat → List Nat) :
    KeyMaterial → List (List Char) → KeyMaterial
  | km, [] => km
  | km, t :: ts =>
    match parseNatDigits t with
    | none => walkTokens H km ts
    | some i => walkTokens H (deriveChild H km.key km.chainCode i true) ts

/-- Modelled from the spec: the lenient walker — tokenize the path, fold the
child deriver over the parsed segments starting from the master material,
return the final key. Total: no input is rejected. -/
def deriveForPath (H : List Nat → List Nat → List Nat)
    (masterKey masterChainCode : List Nat) (path : List Char) : List Nat :=
  (walkTokens H ⟨masterKey, masterChainCode⟩ (rawTokens path)).key

/-- Wrapper with the test file's name, taking the path as a string. -/
def DerivePrivateKeyForPath (H : List Nat → List Nat → List Nat)
    (masterKey masterChainCode : List Nat) (path : String) : List Nat :=
  deriveForPath H masterKey masterChainCode path.toList

end BncHd

namespace BncStake

/-! Embedding of `types/stake.go`: bond status and the ABCI validator
projection. A `BondStatus` is a byte; the partial `switch` of
`BondStatusToString` is modelled with `Option`, `none` standing for the
`panic` branch. -/

/-- A consensus public key, reduced to the one observation `ABCIValidator`
makes of it: its address bytes (`PubKey.Address()`). -/
structure PubKey where
  address : List Nat
deriving DecidableEq, Repr

/-- A decimal, reduced to the one observation `ABCIValidator` makes of it:
its raw integer (`Dec.RawInt()`). -/
structure Dec where
  rawInt : Int
deriving DecidableEq, Repr

/-- `abci.Validator`: the two fields `ABCIValidator` populates. -/
structure AbciValidator where
  address : List Nat
  power : Int
deriving DecidableEq, Repr

/-- The `Validator` interface as a record of its getter results
(`types/stake.go`). -/
structure Validator where
  jailed : Bool
  moniker : String
  status : Nat
  feeAddr : List Nat
  operator : List Nat
  consPubKey : PubKey
  consAddr : List Nat
  power : Dec
  tokens : Dec
  commission : Dec
  delegatorShares : Dec
  bondHeight : Int
  sideChainConsAddr : List Nat
  sideChainVoteAddr : List Nat
  isSideChainValidator : Bool
deriving DecidableEq, Repr

/-- `BondStatusToString` from `types/stake.go`: `switch` on the byte with
cases 0x00, 0x01, 0x02; the default branch panics, modelled as `none`. -/
def BondStatusToString (b : Nat) : Option String :=
  if b = 0 then some "Unbonded"
  else if b = 1 then some "Unbonding"
  else if b = 2 then some "Bonded"
  else none

/-- `ABCIValidator` from `types/stake.go`: address from the consensus public
key, power from the raw decimal power. -/
def ABCIValidator (v : Validator) : AbciValidator :=
  ⟨v.consPubKey.address, v.power.rawInt⟩

end BncStake

/-! ## Helper lemmas -/

namespace BncHd

/-- The fuel argument of the digit renderer is irrelevant once sufficient. -/
theorem natDigitsAux_congr : ∀ (f g n : Nat), n < f → n < g →
    natDigitsAux f n = natDigitsAux g n := by
  intro f
  induction f with
  | zero => intro g n hf; omega
  | succ f ih =>
    intro g n hf hg
    cases g with
    | zero => omega
    | succ g =>
      simp only [natDigitsAux]
      by_cases h10 : n < 10
      · simp [h10]
      · have hdiv : n / 10 < n := Nat.div_lt_self (by omega) (by omega)
        simp only [h10, if_false]
        rw [ih g (n / 10) (by omega) (by omega)]

/-- Recurrence satisfied by the decimal renderer. -/
theorem natDigits_unfold (n : Nat) :
    natDigits n = if n < 10 then [digitChar n]
      else natDigits (n / 10) ++ [digitChar (n % 10)] := by
  have h1 : natDigits n
      = if n < 10 then [digitChar n] else natDigitsAux n (n / 10) ++ [digitChar (n % 10)] := rfl
  rw [h1]
  by_cases h10 : n < 10
  · simp [h10]
  · have hdiv : n / 10 < n := Nat.div_lt_self (by omega) (by omega)
    simp only [h10, if_false]
    rw [natDigitsAux_congr n (n / 10 + 1) (n / 10) (by omega) (by omega)]
    rfl

theorem digitVal_digitChar {d : Nat} (h : d < 10) : digitVal (digitChar d) = d := by
  interval_cases d <;> rfl

theorem isDigit_digitChar {d : Nat} (h : d < 10) : (digitChar d).isDigit = true := by
  interval_cases d <;> rfl

theorem natDigits_ne_nil (n : Nat) : natDigits n ≠ [] := by
  rw [natDigits_unfold]
  by_cases h10 : n < 10 <;> simp [h10]

theorem natDigits_all_digits : ∀ n, ∀ c ∈ natDigits n, c.isDigit = true := by
  intro n
  induction n using Nat.strong_induction_on with
  | _ n ih =>
    rw [natDigits_unfold]
    by_cases h10 : n < 10
    · simp only [h10, if_true, List.mem_singleton]
      intro c hc
      subst hc
      exact isDigit_digitChar h10
    · have hdiv : n / 10 < n := Nat.div_lt_self (by omega) (by omega)
      simp only [h10, if_false, List.mem_append, List.mem_singleton]
      intro c hc
      rcases hc with hc | hc
      · exact ih _ hdiv c hc
      · subst hc; exact isDigit_digitChar (by omega)

theorem decodeDigits_append (xs : List Char) (c : Char) :
    decodeDigits (xs ++ [c]) = 10 * decodeDigits xs + digitVal c := by
  simp [decodeDigits, List.foldl_append]

/-- Decoding a rendered number recovers the number. -/
theorem decodeDigits_natDigits : ∀ n, decodeDigits (natDigits n) = n := by
  intro n
  induction n using Nat.strong_induction_on with
  | _ n ih =>
    rw [natDigits_unfold]
    by_cases h10 : n < 10
    · simp [h10, decodeDigits, digitVal_digitChar h10]
    · have hdiv : n / 10 < n := Nat.div_lt_self (by omega) (by omega)
      simp [h10, decodeDigits_append, ih _ hdiv, digitVal_digitChar (Nat.mod_lt n (by omega))]
      omega

/-- The token parser accepts every rendered number. -/
theorem parseNatDigits_natDigits (n : Nat) : parseNatDigits (natDigits n) = some n := by
  have h2 : (natDigits n).all Char.isDigit = true := by
    rw [List.all_eq_true]
    exact natDigits_all_digits n
  rw [parseNatDigits, if_pos ⟨natDigits_ne_nil n, h2⟩, decodeDigits_natDigits]

theorem isDigit_ne_slash {c : Char} (h : c.isDigit = true) : c ≠ '/' := by
  rintro rfl
  simp [Char.isDigit] at h

theorem apos_ne_slash : apos ≠ '/' := by decide

theorem splitOnSlash_no_slash : ∀ s : List Char, (∀ c ∈ s, c ≠ '/') →
    splitOnSlash s = [s] := by
  intro s
  induction s with
  | nil => intro _; rfl
  | cons c cs ih =>
    intro h
    have hc : c ≠ '/' := h c (by simp)
    simp only [splitOnSlash, hc, if_false]
    rw [ih (fun d hd => h d (by simp [hd]))]

/-- Splitting peels off a separator-free leading field. -/
theorem splitOnSlash_append : ∀ (a b : List Char), (∀ c ∈ a, c ≠ '/') →
    splitOnSlash (a ++ '/' :: b) = a :: splitOnSlash b := by
  intro a
  induction a with
  | nil =>
    intro b _
    simp [splitOnSlash]
  | cons c cs ih =>
    intro b h
    have hc : c ≠ '/' := h c (by simp)
    simp only [List.cons_append, splitOnSlash, hc, if_false, List.append_eq]
    rw [ih b (fun d hd => h d (by simp [hd]))]

theorem no_slash_hardened (n : Nat) : ∀ c ∈ natDigits n ++ [apos], c ≠ '/' := by
  intro c hc
  rcases List.mem_append.mp hc with hc | hc
  · exact isDigit_ne_slash (natDigits_all_digits n c hc)
  · simp only [List.mem_singleton] at hc
    subst hc
    exact apos_ne_slash

/-- The hardened-field parser accepts every rendered hardened field. -/
theorem parseHardened_natDigits (n : Nat) :
    parseHardened (natDigits n ++ [apos]) = some n := by
  rw [parseHardened]
  simp only [List.reverse_append, List.reverse_singleton, List.singleton_append]
  simp [parseNatDigits_natDigits n]

theorem parseChange_changeDigits (b : Bool) : parseChange (changeDigits b) = some b := by
  cases b <;> rfl

theorem no_slash_changeDigits (b : Bool) : ∀ c ∈ changeDigits b, c ≠ '/' := by
  cases b <;> decide

theorem no_slash_natDigits (n : Nat) : ∀ c ∈ natDigits n, c ≠ '/' :=
  fun c hc => isDigit_ne_slash (natDigits_all_digits n c hc)

/-- The canonical serialization splits into exactly its five fields. -/
theorem splitOnSlash_pathString (p : BIP44Params) :
    splitOnSlash p.pathString =
      [natDigits p.purpose ++ [apos], natDigits p.coinType ++ [apos],
       natDigits p.account ++ [apos], changeDigits p.change,
       natDigits p.addressIndex] := by
  rw [BIP44Params.pathString]
  rw [splitOnSlash_append _ _ (no_slash_hardened p.purpose)]
  rw [splitOnSlash_append _ _ (no_slash_hardened p.coinType)]
  rw [splitOnSlash_append _ _ (no_slash_hardened p.account)]
  rw [splitOnSlash_append _ _ (no_slash_changeDigits p.change)]
  rw [splitOnSlash_no_slash _ (no_slash_natDigits p.addressIndex)]

/-- The strict parser succeeds exactly on the declarative 5-field grammar. -/
theorem isOkE_eq_validPath (s : List Char) : isOkE (NewParamsFromPath s) = validPath s := by
  rw [NewParamsFromPath, validPath]
  rcases splitOnSlash s with _ | ⟨f0, _ | ⟨f1, _ | ⟨f2, _ | ⟨f3, _ | ⟨f4, _ | ⟨f5, rest⟩⟩⟩⟩⟩⟩ <;>
    try rfl
  rcases h0 : parseHardened f0 with _ | p
  · simp [h0, isOkE]
  · by_cases hp : p = 44
    · subst hp
      rcases h1 : parseHardened f1 with _ | ct
      · simp [h0, h1, isOkE]
      · rcases h2 : parseHardened f2 with _ | acc
        · simp [h0, h1, h2, isOkE]
        · rcases h3 : parseChange f3 with _ | ch
          · simp [h0, h1, h2, h3, isOkE]
          · rcases h4 : parseNatDigits f4 with _ | ai
            · simp [h0, h1, h2, h3, h4, isOkE]
            · simp [h0, h1, h2, h3, h4, isOkE]
    · simp [h0, hp, isOkE]

/-- Whatever the grammar refuses, the strict parser rejects with an error. -/
theorem notValid_isErr (s : List Char) (h : validPath s = false) :
    isErrE (NewParamsFromPath s) = true := by
  have h1 := isOkE_eq_validPath s
  rw [h] at h1
  rcases he : NewParamsFromPath s with e | v
  · rfl
  · rw [he] at h1
    simp [isOkE] at h1

/-- The walker loop equals a left fold of the hardened child deriver over the
parsed segments, unparsable tokens dropped. -/
theorem walkTokens_eq_foldl (H : List Nat → List Nat → List Nat) :
    ∀ (ts : List (List Char)) (km : KeyMaterial),
      walkTokens H km ts =
        (ts.filterMap parseNatDigits).foldl
          (fun km i => deriveChildCore H km.key km.chainCode i true) km := by
  intro ts
  induction ts with
  | nil => intro km; rfl
  | cons t ts ih =>
    intro km
    rcases ht : parseNatDigits t with _ | i
    · rw [walkTokens, ht, List.filterMap_cons, ht]
      exact ih km
    · rw [walkTokens, ht, List.filterMap_cons, ht, List.foldl_cons]
      exact ih _

theorem deriveChildCore_key_length (H : List Nat → List Nat → List Nat)
    (hH : ∀ k d, (H k d).length = 64) (pk cc : List Nat) (i : Nat) (b : Bool) :
    (deriveChildCore H pk cc i b).key.length = 32 := by
  simp [deriveChildCore, List.length_take, hH]

/-- The walker preserves the 32-byte key shape. -/
theorem walkTokens_key_length (H : List Nat → List Nat → List Nat)
    (hH : ∀ k d, (H k d).length = 64) :
    ∀ (ts : List (List Char)) (km : KeyMaterial), km.key.length = 32 →
      (walkTokens H km ts).key.length = 32 := by
  intro ts
  induction ts with
  | nil => intro km h; exact h
  | cons t ts ih =>
    intro km h
    rw [walkTokens]
    rcases ht : parseNatDigits t with _ | i
    · exact ih km h
    · exact ih _ (deriveChildCore_key_length H hH km.key km.chainCode i true)

end BncHd

/-! ## Claim theorems -/

open BncHd

/-- Claim C2: the single-step child derivation returns the same child
material whether the caller-supplied hardened flag is true or false — it
always computes the hardened form — and consequently the lenient path walker
derives every parsed segment as a hardened step. -/
theorem claim_C2 : ∀ (H : List Nat → List Nat → List Nat) (pk cc : List Nat) (i : Nat),
    (deriveChild H pk cc i true = deriveChild H pk cc i false ∧
      deriveChild H pk cc i true = deriveChildCore H pk cc i true) ∧
    ∀ (mk mcc : List Nat) (path : List Char),
      deriveForPath H mk mcc path =
        ((segments path).foldl
          (fun km j => deriveChildCore H km.key km.chainCode j true) ⟨mk, mcc⟩).key := by
  intro H pk cc i
  refine ⟨⟨rfl, rfl⟩, ?_⟩
  intro mk mcc path
  rw [deriveForPath, walkTokens_eq_foldl]
  rfl

/-- Claim C3: for every path string and every 32-byte master key, the lenient
walker returns a 32-byte value, given that the keyed hash produces 64-byte
digests; termination and absence of abnormal exit are by construction, the
model being a total function. -/
theorem claim_C3 (H : List Nat → List Nat → List Nat) (hH : ∀ k d, (H k d).length = 64)
    (mk mcc : List Nat) (hmk : mk.length = 32) (path : List Char) :
    (deriveForPath H mk mcc path).length = 32 := by
  rw [deriveForPath]
  exact walkTokens_key_length H hH _ ⟨mk, mcc⟩ hmk

/-- Witness for claim C3, at a whitespace-laden path from the test file. -/
theorem claim_C3_witness :
    (deriveForPath (fun _ _ => List.replicate 64 0) (List.replicate 32 0)
      (List.replicate 32 0) (" m       /0/7".toList)).length = 32 :=
  claim_C3 _ (fun _ _ => by simp) _ _ (by simp) _

/-- Claim C4: the lenient walker rejects nothing — a token that does not
parse as a non-negative integer is silently dropped from the walk, and the
walk equals the fold over exactly the parsable tokens; the model is a total
function with no error outcome. -/
theorem claim_C4 : ∀ (H : List Nat → List Nat → List Nat) (km : KeyMaterial)
    (t : List Char) (ts : List (List Char)),
    (parseNatDigits t = none → walkTokens H km (t :: ts) = walkTokens H km ts) ∧
    walkTokens H km ts =
      (ts.filterMap parseNatDigits).foldl
        (fun km i => deriveChildCore H km.key km.chainCode i true) km := by
  intro H km t ts
  constructor
  · intro ht
    rw [walkTokens, ht]
  · exact walkTokens_eq_foldl H ts km

/-- Witness for claim C4: dropping a concrete unparsable token. -/
theorem claim_C4_witness :
    walkTokens (fun _ _ => []) ⟨[1], [2]⟩ ("junk".toList :: ["0".toList]) =
      walkTokens (fun _ _ => []) ⟨[1], [2]⟩ ["0".toList] :=
  (claim_C4 _ _ _ _).1 (by decide)

/-- Claim C5: the strict parser errors on every string refused by the
declarative 5-field grammar — wrong field count, wrong purpose literal,
misplaced hardening markers, bad change field, negative or non-numeric
fields — and in particular on each of the eleven bad-case strings of the
test file; the error branch carries no parameter value at all. -/
theorem claim_C5 :
    (∀ s : List Char, validPath s = false → isErrE (NewParamsFromPath s) = true) ∧
    (["43\x27/0\x27/0\x27/0/0", "44\x27/1\x27/0\x27/0/0/5", "44\x27/0\x27/1\x27/0",
      "44\x27/0\x27/0\x27/2/0", "44/0\x27/0\x27/0/0", "44\x27/0/0\x27/0/0",
      "44\x27/0\x27/0/0/0", "44\x27/0\x27/0\x27/0\x27/0", "44\x27/0\x27/0\x27/0/0\x27",
      "44\x27/-1\x27/0\x27/0/0", "44\x27/0\x27/0\x27/-1/0"].all
        (fun s => isErrE (NewParamsFromPath s.toList))) = true := by
  constructor
  · exact notValid_isErr
  · decide

/-- Witness for claim C5: a path with no hardening markers is rejected. -/
theorem claim_C5_witness : isErrE (NewParamsFromPath ("44/0/0/0/0".toList)) = true :=
  claim_C5.1 _ (by decide)

/-- Counterexample to claim C6 as stated: the parameters with purpose 43 are
valid in the sense of the claim (all fields non-negative), yet parsing their
canonical serialization fails, because the strict parser only accepts the
literal purpose 44. -/
theorem claim_C6_counterexample :
    isErrE (NewParamsFromPath (BIP44Params.pathString (NewParams 43 0 0 false 0))) = true := by
  decide

/-- Claim C6 (amended): for every parameter value whose purpose field is the
literal 44, parsing the canonical serialization succeeds and round-trips to
an equal value. -/
theorem claim_C6 : ∀ (ct acc ai : Nat) (ch : Bool),
    NewParamsFromPath (BIP44Params.pathString ⟨44, ct, acc, ch, ai⟩) =
      .ok ⟨44, ct, acc, ch, ai⟩ := by
  intro ct acc ai ch
  rw [NewParamsFromPath, splitOnSlash_pathString]
  simp [parseHardened_natDigits, parseChange_changeDigits, parseNatDigits_natDigits]

/-- Claim C7: the formatter is total by construction and emits exactly the
five slash-separated fields — purpose, coin type and account each followed
by the hardening marker, then the change bit rendered as the literal 0 or 1
and the bare address index; in particular the canonical default renders as
the documented string. -/
theorem claim_C7 :
    (∀ p : BIP44Params,
      splitOnSlash p.pathString =
        [natDigits p.purpose ++ [apos], natDigits p.coinType ++ [apos],
         natDigits p.account ++ [apos], changeDigits p.change,
         natDigits p.addressIndex]) ∧
    (NewParams 44 0 0 false 0).pathString = "44\x27/0\x27/0\x27/0/0".toList :=
  ⟨splitOnSlash_pathString, by decide⟩

/-- Claim C9: the bond-status printer returns the documented names for the
bytes 0, 1 and 2 and reaches the panic branch, modelled as none, for every
other byte value. -/
theorem claim_C9 :
    BncStake.BondStatusToString 0 = some "Unbonded" ∧
    BncStake.BondStatusToString 1 = some "Unbonding" ∧
    BncStake.BondStatusToString 2 = some "Bonded" ∧
    ∀ b : Nat, b < 256 → 2 < b → BncStake.BondStatusToString b = none := by
  refine ⟨rfl, rfl, rfl, ?_⟩
  intro b h1 h2
  have e0 : b ≠ 0 := by omega
  have e1 : b ≠ 1 := by omega
  have e2 : b ≠ 2 := by omega
  simp [BncStake.BondStatusToString, e0, e1, e2]

/-- Witness for claim C9: the byte 3 hits the panic branch. -/
theorem claim_C9_witness : BncStake.BondStatusToString 3 = none :=
  claim_C9.2.2.2 3 (by decide) (by decide)

/-- Claim C10: the ABCI projection of a validator reads exactly the address
of its consensus public key and the raw integer of its power, and two
validators agreeing on those two components project identically, whatever
their other fields; the projection is a pure function of the record. -/
theorem claim_C10 : ∀ v : BncStake.Validator,
    (BncStake.ABCIValidator v).address = v.consPubKey.address ∧
    (BncStake.ABCIValidator v).power = v.power.rawInt ∧
    ∀ w : BncStake.Validator, w.consPubKey = v.consPubKey → w.power = v.power →
      BncStake.ABCIValidator w = BncStake.ABCIValidator v := by
  intro v
  refine ⟨rfl, rfl, ?_⟩
  intro w h1 h2
  simp [BncStake.ABCIValidator, h1, h2]

/-- Witness for claim C10: two validators differing in every consulted-free
field project to the same ABCI validator. -/
theorem claim_C10_witness :
    BncStake.ABCIValidator
      ⟨true, "a", 0, [1], [2], ⟨[3]⟩, [4], ⟨5⟩, ⟨6⟩, ⟨7⟩, ⟨8⟩, 9, [10], [11], false⟩ =
    BncStake.ABCIValidator
      ⟨false, "b", 2, [9], [8], ⟨[3]⟩, [7], ⟨5⟩, ⟨1⟩, ⟨2⟩, ⟨3⟩, 4, [5], [6], true⟩ :=
  (claim_C10 _).2.2 _ rfl rfl

/-- Claim C8: whenever the lenient tokenization of a path yields no segment
at all — empty, whitespace-only, or separators plus an optional root
marker — the walker returns the master key unchanged. -/
theorem claim_C8 (H : List Nat → List Nat → List Nat) (mk mcc : List Nat)
    (path : List Char) (h : segments path = []) :
    deriveForPath H mk mcc path = mk := by
  rw [deriveForPath, walkTokens_eq_foldl]
  have hseg : (rawTokens path).filterMap parseNatDigits = segments path := rfl
  rw [hseg, h]
  rfl

/-- Witness for claim C8: a root marker followed by separators only. -/
theorem claim_C8_witness :
    deriveForPath (fun _ _ => List.replicate 64 0) [7] [8] ("m///".toList) = [7] :=
  claim_C8 _ _ _ _ (by decide)
